import Mathlib

/-
Verification of the pragmatic_builder green agent and trial generator.

Shallow embedding of `src/pragmatic_builder/green_agent.py` and
`src/pragmatic_builder/building_task.py`.  Python strings are modelled as
`List Char` (`PyStr`); Python's `str.split`, `str.strip`, `str.capitalize`,
`str.lower` and `str.join` are modelled character-by-character (ASCII case
mapping, which covers every string the program manipulates).  Python `set`s
of strings become `Finset PyStr`.  The pseudo-random source
`random.Random(seed)` is modelled by a deterministic generator seeded
explicitly; the exact pseudo-random stream is not reproduced (an LCG stands
in for the Mersenne twister), and every theorem below that touches it
depends only on the stream being a deterministic function of the seed.
External collaborators (the A2A transport, the QA backend, the transcript
recorder) appear as parameters: the builder's successive replies are a
script `List PyStr`, the QA service is an optional function, and the
transcript/status side channels are omitted as they carry no scoring state.
-/

/- Python strings as lists of characters. -/
abbrev PyStr := List Char

/- ASCII case mapping, as used by Python `str.lower` / `str.capitalize`
on the ASCII data this program manipulates. -/
def lowerC (c : Char) : Char :=
  if 65 ≤ c.toNat ∧ c.toNat ≤ 90 then Char.ofNat (c.toNat + 32) else c

def upperC (c : Char) : Char :=
  if 97 ≤ c.toNat ∧ c.toNat ≤ 122 then Char.ofNat (c.toNat - 32) else c

/- The whitespace characters removed by Python `str.strip()` (ASCII part). -/
def isSpaceC (c : Char) : Bool :=
  c.toNat = 32 || (9 ≤ c.toNat && c.toNat ≤ 13)

/- Python `s.split(sep)` for a one-character separator: always returns at
least one (possibly empty) field. -/
def splitChar (sep : Char) : PyStr → List PyStr
  | [] => [[]]
  | c :: rest =>
    if c = sep then [] :: splitChar sep rest
    else
      match splitChar sep rest with
      | [] => [[c]]
      | s :: ss => (c :: s) :: ss

/- Leading-whitespace removal, trailing-whitespace removal, `str.strip()`. -/
def dropTrail (s : PyStr) : PyStr := (s.reverse.dropWhile isSpaceC).reverse

def strip (s : PyStr) : PyStr := dropTrail (s.dropWhile isSpaceC)

/- Python `str.capitalize()`: first character upper-cased, the rest
lower-cased. -/
def capitalize : PyStr → PyStr
  | [] => []
  | c :: rest => upperC c :: rest.map lowerC

/- Python `sep.join(parts)`. -/
def joinSepS (sep : PyStr) : List PyStr → PyStr
  | [] => []
  | [p] => p
  | p :: ps => p ++ sep ++ joinSepS sep ps

/- Substring test, modelling Python's `needle in hay`. -/
def startsWithL : PyStr → PyStr → Bool
  | [], _ => true
  | _ :: _, [] => false
  | a :: as, b :: bs => a = b && startsWithL as bs

def occursIn (needle : PyStr) : PyStr → Bool
  | [] => startsWithL needle []
  | hay@(_ :: rest) => startsWithL needle hay || occursIn needle rest

/- `BuildingInstructorGreenAgent._normalize_structure` (green_agent.py
lines 173-187): strip each entry, drop empty entries and entries that do
not have exactly four comma-separated fields, capitalize the color, strip
each coordinate, and collect the results into a set. -/
def normalizeItem (item : PyStr) : Option PyStr :=
  let item' := strip item
  if item' = [] then none
  else
    let parts := splitChar ',' item'
    if parts.length = 4 then
      some (joinSepS ",".toList
        (capitalize (strip (parts.headD [])) :: (parts.drop 1).map strip))
    else none

def normalizeStructure (items : List PyStr) : Finset PyStr :=
  (items.filterMap normalizeItem).toFinset

/- Python string comparison `<` (lexicographic by code point), used by
`sorted`. -/
def pyStrLe : PyStr → PyStr → Bool
  | [], _ => true
  | _ :: _, [] => false
  | a :: as, b :: bs =>
    if a.toNat < b.toNat then true
    else if b.toNat < a.toNat then false
    else pyStrLe as bs

def insertStr (x : PyStr) : List PyStr → List PyStr
  | [] => [x]
  | y :: ys => if pyStrLe x y then x :: y :: ys else y :: insertStr x ys

def sortStrs : List PyStr → List PyStr
  | [] => []
  | x :: xs => insertStr x (sortStrs xs)

/- `BuildingInstructorGreenAgent._fallback_answer` (green_agent.py lines
162-171).  `sorted(set(colors))` is modelled as an insertion sort of the
deduplicated color list. -/
def fallbackAnswer (question target_structure : PyStr) : PyStr :=
  let colors := (splitChar ';' target_structure).filterMap
    (fun block => if block ≠ [] then some (block.takeWhile (fun c => c ≠ ',')) else none)
  let unique_colors := sortStrs colors.dedup
  if occursIn "color".toList (question.map lowerC) && !unique_colors.isEmpty then
    "Colors in target: ".toList ++ joinSepS ", ".toList unique_colors ++ ".".toList
  else
    "I can answer questions about the target structure.".toList

/- The outcome dictionary produced by `eval_message` for one builder
reply. -/
structure Outcome where
  message : PyStr
  num_correct : Option Nat
  num_questions : Nat
  built : Bool
deriving DecidableEq

/- `ServerError(error=InvalidParamsError(...))` raised on an unknown
action tag. -/
inductive EvalErr where
  | invalidParams (msg : PyStr)
deriving DecidableEq

deriving instance DecidableEq for Except

/- The `[ASK]` branch answers through the QA collaborator when present,
else through the fallback answerer (green_agent.py lines 148-154). -/
def answerFor (qa : Option (PyStr → PyStr → PyStr)) (question target : PyStr) : PyStr :=
  match qa with
  | some f => f question target
  | none => fallbackAnswer question target

/- The string literal returned by the mismatch branch of `eval_message`
(green_agent.py line 141).  In the source this is a plain (non-f) string,
so the braces and their contents appear verbatim in the message. -/
def incorrectMessage : PyStr :=
  "Incorrect structure. Expected: \x7btarget_structure\x7d, but got: \x7b\x27;\x27.join(content)\x7d".toList

/- `BuildingInstructorGreenAgent.eval_message` (green_agent.py lines
127-160).  The Python `match` on the first `;`-separated field becomes an
if-chain; exceptions become `Except.error`. -/
def evalMessage (qa : Option (PyStr → PyStr → PyStr)) (response target_structure : PyStr) :
    Except EvalErr Outcome :=
  let string_response := splitChar ';' response
  let action := string_response.headD []
  if action = "[BUILD]".toList then
    let content := normalizeStructure (string_response.drop 1)
    let target_structure_set := normalizeStructure (splitChar ';' target_structure)
    if content = target_structure_set then
      .ok ⟨"Correct structure built. ".toList ++ target_structure, some 1, 0, true⟩
    else
      .ok ⟨incorrectMessage, some 0, 0, true⟩
  else if action = "[ASK]".toList then
    let content := strip (joinSepS ";".toList (string_response.drop 1))
    .ok ⟨"Answer: ".toList ++ answerFor qa content target_structure, none, 1, false⟩
  else
    .error (.invalidParams "Invalid action in response".toList)

/- One instruction instance, the dictionary built by
`create_instruction_with_version` (building_task.py lines 155-163), with
the `round` key added later by `run`. -/
structure Instr where
  speaker : PyStr
  start_structure : PyStr
  instruction : PyStr
  trial_id : PyStr
  list_id : Nat
  target_structure : PyStr
  trial_type : PyStr
  round : Nat
deriving DecidableEq

/- Errors that can escape `run_eval`: a protocol error from
`eval_message`, a transport failure from the messaging collaborator, the
`ZeroDivisionError` of green_agent.py line 110 when no instruction was
produced, and a failure while building or emitting the result artifact. -/
inductive RunErr where
  | protocol (e : EvalErr)
  | transport
  | zeroDiv
  | artifact
deriving DecidableEq

/- The result of one instruction's interaction loop: the final outcome,
the accumulated `round_questions_count`, the unconsumed tail of the reply
script, and the prompts sent to the builder, in order. -/
structure LoopRes where
  out : Outcome
  questions : Nat
  remaining : List PyStr
  prompts : List PyStr
deriving DecidableEq

/- The `while built is not True` loop of `run_eval` (green_agent.py lines
86-95): send the prompt, evaluate the reply, accumulate the question
count, and continue with `eval_result['message']` as the next prompt
until `built` is true.  The builder's replies are a finite script; an
exhausted script stands for a failing transport call. -/
def instrLoop (qa : Option (PyStr → PyStr → PyStr)) (target : PyStr) :
    List PyStr → PyStr → Except RunErr LoopRes
  | [], _ => .error .transport
  | reply :: rest, prompt =>
    match evalMessage qa reply target with
    | .error e => .error (.protocol e)
    | .ok out =>
      if out.built then .ok ⟨out, out.num_questions, rest, [prompt]⟩
      else
        match instrLoop qa target rest out.message with
        | .ok r => .ok ⟨r.out, r.questions + out.num_questions, r.remaining, prompt :: r.prompts⟩
        | .error e => .error e

/- The initial prompt of an instruction (green_agent.py line 82). -/
def initPrompt (task_description : PyStr) (i : Instr) : PyStr :=
  task_description ++ "\n[START_STRUCTURE] ".toList ++ i.start_structure
    ++ "\n".toList ++ i.instruction

/- Accumulated run-level counters after a prefix of the instruction
sequence (green_agent.py lines 97-100). -/
structure Totals where
  num_correct : Nat
  scored_count : Nat
  questions_count : Nat
  remaining : List PyStr
deriving DecidableEq

/- The per-instruction half of `run_eval`'s main loop (green_agent.py
lines 77-106), over the concatenation of both speakers' instruction
lists.  The per-round `results` dictionary and the one-shot feedback
message are diagnostics whose replies are ignored, so they carry no
state here. -/
def processAll (qa : Option (PyStr → PyStr → PyStr)) (task_description : PyStr) :
    List Instr → List PyStr → Nat → Nat → Nat → Except RunErr Totals
  | [], replies, nc, sc, qc => .ok ⟨nc, sc, qc, replies⟩
  | i :: is, replies, nc, sc, qc =>
    match instrLoop qa i.target_structure replies (initPrompt task_description i) with
    | .error e => .error e
    | .ok r =>
      if r.out.num_correct.isSome then
        processAll qa task_description is r.remaining (nc + r.out.num_correct.getD 0) (sc + 1)
          (qc + r.questions)
      else
        processAll qa task_description is r.remaining nc sc (qc + r.questions)

/- Line 109 of green_agent.py:
`accuracy = (num_correct / scored_count * 100.0) if scored_count else 0.0`.
Python floats are modelled as rationals. -/
def computeAccuracy (nc sc : Nat) : ℚ :=
  if sc ≠ 0 then (nc : ℚ) / (sc : ℚ) * 100 else 0

/- The result payload of a run, as green_agent.py line 113 constructs
it. -/
structure EvalResultM where
  accuracy : ℚ
  avg_questions_per_instruction : ℚ
deriving DecidableEq

/- `task_description` of green_agent.py line 75 (including the stray
closing parenthesis of the source). -/
def taskDescription (grid_context : PyStr) : PyStr :=
  "[TASK_DESCRIPTION] ".toList ++ grid_context ++ ")".toList

/- `run_eval` (green_agent.py lines 39-122), as a function of the QA
collaborator, the generated trials, the builder's reply script, and
whether artifact construction/emission succeeds.  The second component
counts calls to `ToolProvider.reset`: the `try/finally` of lines 112-121
wraps only result construction and artifact emission, so the counter is
bumped exactly when control reaches that block. -/
def runEval (qa : Option (PyStr → PyStr → PyStr)) (grid_context : PyStr)
    (instructionsA instructionsB : List Instr) (replies : List PyStr)
    (artifactOk : Bool) : Except RunErr EvalResultM × Nat :=
  let td := taskDescription grid_context
  match processAll qa td (instructionsA ++ instructionsB) replies 0 0 0 with
  | .error e => (.error e, 0)
  | .ok t =>
    let accuracy := computeAccuracy t.num_correct t.scored_count
    let total := (instructionsA ++ instructionsB).length
    if total = 0 then (.error .zeroDiv, 0)
    else
      let avg := (t.questions_count : ℚ) / (total : ℚ)
      if artifactOk then (.ok ⟨accuracy, avg⟩, 1) else (.error .artifact, 1)

/- Deterministic model of `random.Random(seed)` (building_task.py line
16).  A linear congruential generator stands in for the Mersenne twister:
the exact stream differs from CPython's, but every theorem below that
involves it depends only on the stream being a deterministic function of
the seed. -/
structure PyRandom where
  state : Nat
deriving DecidableEq

def PyRandom.next (r : PyRandom) : Nat × PyRandom :=
  let s := (r.state * 1103515245 + 12345) % 2147483648
  (s, ⟨s⟩)

def PyRandom.randbelow (r : PyRandom) (n : Nat) : Nat × PyRandom :=
  let p := r.next
  (p.1 % n, p.2)

/- `rng.choice` on a two-element list, the only shape used by `run`
(building_task.py lines 96, 100, 104). -/
def PyRandom.choice2 {α : Type} (r : PyRandom) (a b : α) : α × PyRandom :=
  let p := r.next
  (if p.1 % 2 = 0 then a else b, p.2)

/- Remove and return the element at an index. -/
def extractAt {α : Type} : Nat → List α → Option (α × List α)
  | _, [] => none
  | 0, x :: xs => some (x, xs)
  | n + 1, x :: xs => (extractAt n xs).map (fun p => (p.1, x :: p.2))

/- Fisher-Yates-style model of `rng.shuffle` (building_task.py lines
131-134); the fuel argument equals the list length. -/
def shuffleGo {α : Type} : Nat → PyRandom → List α → List α × PyRandom
  | 0, r, l => (l, r)
  | _, r, [] => ([], r)
  | fuel + 1, r, x :: xs =>
    let p := PyRandom.randbelow r (xs.length + 1)
    match extractAt p.1 (x :: xs) with
    | some q =>
      let rest := shuffleGo fuel p.2 q.2
      (q.1 :: rest.1, rest.2)
    | none =>
      let rest := shuffleGo fuel p.2 xs
      (x :: rest.1, rest.2)

def PyRandom.shuffle {α : Type} (r : PyRandom) (l : List α) : List α × PyRandom :=
  shuffleGo l.length r l

/- One CSV row of a stimuli list, keyed by the columns `run` reads. -/
structure TrialRow where
  trialNumber : PyStr
  trialType : PyStr
  startStructure : PyStr
  sentenceW : PyStr
  targetStructure : PyStr
deriving DecidableEq

/- `_get_instruction_data` (building_task.py lines 45-50): first row with
the given trial number. -/
def getInstructionData (trial_number : PyStr) (data : List TrialRow) : Option TrialRow :=
  data.find? (fun row => row.trialNumber == trial_number)

/- Base trial number: trailing `a`/`b` version suffix stripped
(building_task.py lines 64-68).  The source indexes `trial_num[-1]` and
would raise on an empty trial number; here an empty number is left as
is. -/
def baseNumber (t : PyStr) : PyStr :=
  match t.getLast? with
  | some c => if c = 'a' ∨ c = 'b' then t.dropLast else t
  | none => t

/- The category lists built by `_categorize_trials` (building_task.py
lines 52-84), in first-occurrence order, deduplicated by base number. -/
structure Categories where
  fully_spec : List PyStr
  color_under : List PyStr
  number_under : List PyStr
deriving DecidableEq

def catGo : List TrialRow → List PyStr → Categories
  | [], _ => ⟨[], [], []⟩
  | row :: rest, seen =>
    let base := baseNumber row.trialNumber
    if base ∈ seen then catGo rest seen
    else
      let c := catGo rest (base :: seen)
      if row.trialType = "fully_spec".toList then ⟨base :: c.fully_spec, c.color_under, c.number_under⟩
      else if row.trialType = "color_under".toList then ⟨c.fully_spec, base :: c.color_under, c.number_under⟩
      else if row.trialType = "number_under".toList then ⟨c.fully_spec, c.color_under, base :: c.number_under⟩
      else c

def categorizeTrials (data : List TrialRow) : Categories := catGo data []

/- The instruction dictionary built from a resolved row
(building_task.py lines 155-163). -/
def mkInstr (row : TrialRow) (speaker : PyStr) (list_id : Nat) : Instr :=
  ⟨speaker, row.startStructure, row.sentenceW, row.trialNumber, list_id,
    row.targetStructure, row.trialType, 0⟩

/- `create_instruction_with_version` (building_task.py lines 137-163):
look up `base ++ version` (or `base` when the version is empty); when the
versioned lookup misses, fall back to the unversioned base id. -/
def createInstructionWithVersion (l1 l2 : List TrialRow) (trial_base speaker : PyStr)
    (list_id : Nat) (version : PyStr) : Option Instr :=
  let data := if list_id = 1 then l1 else l2
  let trial_data :=
    if version ≠ [] then getInstructionData (trial_base ++ version) data
    else getInstructionData trial_base data
  let trial_data' :=
    if trial_data = none ∧ version ≠ [] then getInstructionData trial_base data
    else trial_data
  trial_data'.map (fun row => mkInstr row speaker list_id)

/- The slot walk of `generate_instructions_for_speaker` (building_task.py
lines 166-216): one step per ordering entry, with separate pool indices
for fully-specified and critical slots; a pool index advances whether or
not the slot produced an instruction. -/
def genLoop (l1 l2 : List TrialRow) (speaker : PyStr) (fsPool critPool : List PyStr)
    (fsList critList : Nat) : List PyStr → Nat → Nat → List Instr
  | [], _, _ => []
  | item :: rest, fIdx, cIdx =>
    if item = "fully_spec".toList then
      if h : fIdx < fsPool.length then
        match createInstructionWithVersion l1 l2 (fsPool.get ⟨fIdx, h⟩) speaker fsList [] with
        | some i => i :: genLoop l1 l2 speaker fsPool critPool fsList critList rest (fIdx + 1) cIdx
        | none => genLoop l1 l2 speaker fsPool critPool fsList critList rest (fIdx + 1) cIdx
      else genLoop l1 l2 speaker fsPool critPool fsList critList rest fIdx cIdx
    else if item = "critical".toList then
      if h : cIdx < critPool.length then
        match createInstructionWithVersion l1 l2 (critPool.get ⟨cIdx, h⟩) speaker critList "a".toList with
        | some i => i :: genLoop l1 l2 speaker fsPool critPool fsList critList rest fIdx (cIdx + 1)
        | none => genLoop l1 l2 speaker fsPool critPool fsList critList rest fIdx (cIdx + 1)
      else genLoop l1 l2 speaker fsPool critPool fsList critList rest fIdx cIdx
    else if item = "critical_a".toList then
      if h : cIdx < critPool.length then
        match createInstructionWithVersion l1 l2 (critPool.get ⟨cIdx, h⟩) speaker critList "a".toList with
        | some i => i :: genLoop l1 l2 speaker fsPool critPool fsList critList rest fIdx (cIdx + 1)
        | none => genLoop l1 l2 speaker fsPool critPool fsList critList rest fIdx (cIdx + 1)
      else genLoop l1 l2 speaker fsPool critPool fsList critList rest fIdx cIdx
    else if item = "critical_b".toList then
      if h : cIdx < critPool.length then
        match createInstructionWithVersion l1 l2 (critPool.get ⟨cIdx, h⟩) speaker critList "b".toList with
        | some i => i :: genLoop l1 l2 speaker fsPool critPool fsList critList rest fIdx (cIdx + 1)
        | none => genLoop l1 l2 speaker fsPool critPool fsList critList rest fIdx (cIdx + 1)
      else genLoop l1 l2 speaker fsPool critPool fsList critList rest fIdx cIdx
    else genLoop l1 l2 speaker fsPool critPool fsList critList rest fIdx cIdx

/- The fixed 20-slot per-speaker orderings (building_task.py lines
19-30). -/
def LisaOrdering : List PyStr :=
  ["fully_spec".toList, "fully_spec".toList, "critical_a".toList, "critical_b".toList,
   "fully_spec".toList, "critical_a".toList, "critical_a".toList, "fully_spec".toList,
   "critical_b".toList, "critical_a".toList, "critical_b".toList, "fully_spec".toList,
   "critical_a".toList, "fully_spec".toList, "critical_a".toList, "fully_spec".toList,
   "critical_a".toList, "fully_spec".toList, "critical_b".toList, "critical_a".toList]

def PiaOrdering : List PyStr :=
  ["fully_spec".toList, "fully_spec".toList, "critical".toList, "critical".toList,
   "fully_spec".toList, "critical".toList, "critical".toList, "fully_spec".toList,
   "critical".toList, "critical".toList, "fully_spec".toList, "critical".toList,
   "critical".toList, "critical".toList, "fully_spec".toList, "critical".toList,
   "critical".toList, "fully_spec".toList, "critical".toList, "fully_spec".toList]

/- `generate_instructions_for_speaker` (building_task.py lines 166-216):
walk the speaker's ordering with both indices starting at zero. -/
def genForSpeaker (l1 l2 : List TrialRow) (speaker : PyStr) (fsPool critPool : List PyStr)
    (fsList critList : Nat) : List Instr :=
  let ordering := if speaker = "Lisa".toList then LisaOrdering else PiaOrdering
  genLoop l1 l2 speaker fsPool critPool fsList critList ordering 0 0

/- Round assignment (building_task.py lines 238-243): `enumerate` with a
starting offset. -/
def addRounds (n : Nat) : List Instr → List Instr
  | [] => []
  | i :: is => { i with round := n } :: addRounds (n + 1) is

/- The static grid description string (building_task.py lines 245-256). -/
def gridContextStr : PyStr :=
  ("Grid: 9x9 cells. Origin=\"middle square\": center (0,0), is highlighted. "
    ++ "The grid is the x–z plane. In front of you is the bottom left corner "
    ++ "(-400,0,400) and the bottom right corner (400,0,400). Top right corner "
    ++ "is (400,0,-400), top left corner is (-400,0,-400). Valid x,z: "
    ++ "[-400,-300,-200,-100,0,100,200,300,400]. Y(ground)=50; each extra block "
    ++ "adds +100; valid y values are [50,150,250,350,450]. The grid may or may "
    ++ "not contain an existing structure. The grid might be empty. Output: "
    ++ "\"Coordinates:Color,x,y,z;Color,x,y,z;\" items separated by \";\"; no spaces; "
    ++ "write coordinates of all blocks that are on the grid, including the initial "
    ++ "coordinates; color should be capitalized. Only one question is allowed.").toList

/- The dictionary returned by `BuildingGameTask.run` (building_task.py
lines 258-266); the constant `"type": "building_game"` entry is the
`gameType` field. -/
structure TrialOutput where
  gameType : PyStr
  grid_context : PyStr
  chosen_list : PyStr
  first_speaker : PyStr
  second_speaker : PyStr
  instructions_A : List Instr
  instructions_B : List Instr
deriving DecidableEq

/- `BuildingGameTask.__init__` (building_task.py lines 11-16): the CSV
loading is I/O, so a task is built directly from the two row lists; the
rng is seeded deterministically from the given seed. -/
structure BuildingGameTask where
  list1_data : List TrialRow
  list2_data : List TrialRow
  rng : PyRandom
deriving DecidableEq

def BuildingGameTask.init (d1 d2 : List TrialRow) (seed : Nat) : BuildingGameTask :=
  ⟨d1, d2, ⟨seed⟩⟩

/- `BuildingGameTask.run` (building_task.py lines 86-266), for the
`payload=None` call made by `run_eval`.  The pair-destructuring
assignments of the source become `.1`/`.2` projections, and the
`if first_speaker == 'Pia'` branch that fills `instructions_A` and
`instructions_B` becomes one conditional per list. -/
def BuildingGameTask.run (t : BuildingGameTask) : TrialOutput :=
  let c1 := t.rng.choice2 "Pia".toList "Lisa".toList
  let first_speaker := c1.1
  let second_speaker := if first_speaker = "Pia".toList then "Lisa".toList else "Pia".toList
  let c2 := c1.2.choice2 1 2
  let fully_spec_list := c2.1
  let fully_spec_data := if fully_spec_list = 1 then t.list1_data else t.list2_data
  let c3 := c2.2.choice2 1 2
  let underspec_list := c3.1
  let underspec_data := if underspec_list = 1 then t.list1_data else t.list2_data
  let fully_spec_categories := categorizeTrials fully_spec_data
  let underspec_categories := categorizeTrials underspec_data
  let other_fully_spec_list := if fully_spec_list = 1 then 2 else 1
  let other_fully_spec_data := if other_fully_spec_list = 2 then t.list2_data else t.list1_data
  let other_fully_spec_categories := categorizeTrials other_fully_spec_data
  let other_underspec_list := if underspec_list = 1 then 2 else 1
  let other_underspec_data := if other_underspec_list = 2 then t.list2_data else t.list1_data
  let other_underspec_categories := categorizeTrials other_underspec_data
  let first_fully_spec_pool := fully_spec_categories.fully_spec
  let first_critical_pool := underspec_categories.color_under ++ underspec_categories.number_under
  let second_fully_spec_pool := other_fully_spec_categories.fully_spec
  let second_critical_pool :=
    other_underspec_categories.color_under ++ other_underspec_categories.number_under
  let s1 := c3.2.shuffle first_fully_spec_pool
  let s2 := s1.2.shuffle first_critical_pool
  let s3 := s2.2.shuffle second_fully_spec_pool
  let s4 := s3.2.shuffle second_critical_pool
  let ia :=
    if first_speaker = "Pia".toList then
      genForSpeaker t.list1_data t.list2_data "Pia".toList s1.1 s2.1 fully_spec_list underspec_list
    else
      genForSpeaker t.list1_data t.list2_data "Lisa".toList s1.1 s2.1 fully_spec_list underspec_list
  let ib :=
    if first_speaker = "Pia".toList then
      genForSpeaker t.list1_data t.list2_data "Lisa".toList s3.1 s4.1 other_fully_spec_list
        other_underspec_list
    else
      genForSpeaker t.list1_data t.list2_data "Pia".toList s3.1 s4.1 other_fully_spec_list
        other_underspec_list
  { gameType := "building_game".toList
    grid_context := gridContextStr
    chosen_list := "mixed".toList
    first_speaker := first_speaker
    second_speaker := second_speaker
    instructions_A := addRounds 1 ia
    instructions_B := addRounds (ia.length + 1) ib }

/- How one non-terminating iteration of the `while` loop wraps the rest of
the loop: the question count grows by the iteration's one question and the
prompt that was sent is recorded. -/
def contWrap (prompt : PyStr) : Except RunErr LoopRes → Except RunErr LoopRes
  | .ok r => .ok ⟨r.out, r.questions + 1, r.remaining, prompt :: r.prompts⟩
  | .error e => .error e

def exceptOk {ε α : Type} : Except ε α → Bool
  | .ok _ => true
  | .error _ => false

/- Sample data for concrete instantiations. -/
def rowFS : TrialRow :=
  ⟨"1".toList, "fully_spec".toList, "".toList, "Place a red block on the origin.".toList,
    "Red,0,50,0".toList⟩

def rowCUa : TrialRow :=
  ⟨"2a".toList, "color_under".toList, "".toList, "Place a block.".toList, "Blue,0,50,0".toList⟩

def rowCU7 : TrialRow :=
  ⟨"7".toList, "color_under".toList, "S".toList, "Add one block.".toList, "Green,0,50,0".toList⟩

def sampleInstr : Instr :=
  ⟨"Lisa".toList, "".toList, "Build.".toList, "t1".toList, 1, "Red,0,50,0".toList, "".toList, 1⟩

/- Two strings are case-equivalent when they agree after ASCII
lower-casing: same characters up to letter case. -/
abbrev caseStr (a b : PyStr) : Prop := a.map lowerC = b.map lowerC

/- Two block descriptors differ only by letter-casing in the color field:
the part before the first comma is case-equivalent and the rest is
identical. -/
abbrev colorCaseVariant (i j : PyStr) : Prop :=
  caseStr (i.takeWhile fun c => c ≠ ',') (j.takeWhile fun c => c ≠ ',')
    ∧ (i.dropWhile fun c => c ≠ ',') = (j.dropWhile fun c => c ≠ ',')

/-- C1: the claim says the "incorrect" feedback message literally contains
both the expected (target) structure and the received normalized
structure.  In the source (green_agent.py line 141) the message is a plain
string missing the `f` prefix, so `eval_message` returns the literal
template text, which contains neither structure.  At target `Red,0,50,0`
and submission `[BUILD];Blue,0,50,0` the returned message is the constant
`incorrectMessage` and contains neither `Red,0,50,0` nor `Blue,0,50,0`. -/
theorem c1_incorrect_message_is_literal_template :
    evalMessage none "[BUILD];Blue,0,50,0".toList "Red,0,50,0".toList
      = .ok ⟨incorrectMessage, some 0, 0, true⟩
    ∧ occursIn "Red,0,50,0".toList incorrectMessage = false
    ∧ occursIn "Blue,0,50,0".toList incorrectMessage = false := by
  refine ⟨by decide, by decide, by decide⟩

/-- C5: a builder reply whose first `;`-separated field is neither
`[BUILD]` nor `[ASK]` makes `eval_message` raise
`ServerError(InvalidParamsError)`; no outcome is produced. -/
theorem c5_unknown_action_raises (qa : Option (PyStr → PyStr → PyStr))
    (response target : PyStr)
    (h1 : (splitChar ';' response).headD [] ≠ "[BUILD]".toList)
    (h2 : (splitChar ';' response).headD [] ≠ "[ASK]".toList) :
    evalMessage qa response target
      = .error (.invalidParams "Invalid action in response".toList) := by
  simp only [evalMessage]
  rw [if_neg h1, if_neg h2]

/-- Witness for C5 at the concrete reply `[FOO];x`. -/
theorem c5_witness :
    evalMessage none "[FOO];x".toList "Red,0,50,0".toList
      = .error (.invalidParams "Invalid action in response".toList) :=
  c5_unknown_action_raises none _ _ (by decide) (by decide)

/-- C3: a builder reply whose first `;`-separated field is `[BUILD]`
always yields an outcome (never an exception) with `built = true` and
`num_correct = 1` exactly when the normalized submitted block set equals
the normalized target set, else `num_correct = 0`. -/
theorem c3_build_always_scores (qa : Option (PyStr → PyStr → PyStr))
    (response target : PyStr)
    (h : (splitChar ';' response).headD [] = "[BUILD]".toList) :
    evalMessage qa response target =
      .ok (if normalizeStructure ((splitChar ';' response).drop 1)
              = normalizeStructure (splitChar ';' target)
           then ⟨"Correct structure built. ".toList ++ target, some 1, 0, true⟩
           else ⟨incorrectMessage, some 0, 0, true⟩) := by
  simp only [evalMessage]
  rw [if_pos h, apply_ite Except.ok]

/-- Witness for C3 at a mismatching concrete submission. -/
theorem c3_witness :
    evalMessage none "[BUILD];blue,0,50,0".toList "Red,0,50,0".toList =
      .ok (if normalizeStructure ((splitChar ';' "[BUILD];blue,0,50,0".toList).drop 1)
              = normalizeStructure (splitChar ';' "Red,0,50,0".toList)
           then ⟨"Correct structure built. ".toList ++ "Red,0,50,0".toList, some 1, 0, true⟩
           else ⟨incorrectMessage, some 0, 0, true⟩) :=
  c3_build_always_scores none _ _ (by decide)

/-- C4: a builder reply whose first `;`-separated field is `[ASK]` yields
`num_correct = None`, `num_questions = 1`, `built = false`, and the
instruction loop does not terminate on it: it continues with the
answer-derived message (`Answer: ...`) as the next prompt. -/
theorem c4_ask_continues (qa : Option (PyStr → PyStr → PyStr))
    (reply target prompt : PyStr) (rest : List PyStr)
    (h : (splitChar ';' reply).headD [] = "[ASK]".toList) :
    evalMessage qa reply target =
      .ok ⟨"Answer: ".toList
             ++ answerFor qa (strip (joinSepS ";".toList ((splitChar ';' reply).drop 1))) target,
           none, 1, false⟩
    ∧ instrLoop qa target (reply :: rest) prompt =
      contWrap prompt (instrLoop qa target rest
        ("Answer: ".toList
          ++ answerFor qa (strip (joinSepS ";".toList ((splitChar ';' reply).drop 1))) target)) := by
  have hne : (splitChar ';' reply).headD [] ≠ "[BUILD]".toList := by
    rw [h]; decide
  have hEval : evalMessage qa reply target =
      .ok ⟨"Answer: ".toList
             ++ answerFor qa (strip (joinSepS ";".toList ((splitChar ';' reply).drop 1))) target,
           none, 1, false⟩ := by
    simp only [evalMessage]
    rw [if_neg hne, if_pos h]
  refine ⟨hEval, ?_⟩
  simp only [instrLoop, hEval]
  cases hrec : instrLoop qa target rest
      ("Answer: ".toList
        ++ answerFor qa (strip (joinSepS ";".toList ((splitChar ';' reply).drop 1))) target) with
  | ok r => simp [contWrap]
  | error e => simp [contWrap]

/-- Witness for C4 at the concrete reply `[ASK];what now?`. -/
theorem c4_witness :
    evalMessage none "[ASK];what now?".toList "Red,0,50,0".toList =
      .ok ⟨"Answer: ".toList
             ++ answerFor none
                 (strip (joinSepS ";".toList ((splitChar ';' "[ASK];what now?".toList).drop 1)))
                 "Red,0,50,0".toList,
           none, 1, false⟩
    ∧ instrLoop none "Red,0,50,0".toList ("[ASK];what now?".toList :: []) "p".toList =
      contWrap "p".toList (instrLoop none "Red,0,50,0".toList []
        ("Answer: ".toList
          ++ answerFor none
              (strip (joinSepS ";".toList ((splitChar ';' "[ASK];what now?".toList).drop 1)))
              "Red,0,50,0".toList)) :=
  c4_ask_continues none _ _ _ _ (by decide)

/-- C7: trial generation is deterministic: two tasks built from the same
seed and the same pair of dataset contents produce identical outputs
(speaker order, list assignments and the whole ordered instruction
sequence are all fields of the output record).  Determinism holds because
the embedded pseudo-random source is a pure function of the seed, exactly
as `random.Random(seed)` is. -/
theorem c7_generation_deterministic (seed : Nat) (d1 d2 : List TrialRow)
    (t1 t2 : BuildingGameTask)
    (h1 : t1 = BuildingGameTask.init d1 d2 seed)
    (h2 : t2 = BuildingGameTask.init d1 d2 seed) :
    t1.run = t2.run := by
  subst h1; subst h2; rfl

/-- Witness for C7 at seed 42 and concrete datasets. -/
theorem c7_witness :
    (BuildingGameTask.init [rowFS, rowCUa] [rowCU7] 42).run
      = (BuildingGameTask.init [rowFS, rowCUa] [rowCU7] 42).run :=
  c7_generation_deterministic 42 [rowFS, rowCUa] [rowCU7] _ _ rfl rfl

/-- C2 counterexample: the claim says `ToolProvider.reset` runs exactly
once on every exit path of `run_eval`, including when processing an
instruction raises.  But the `try/finally` of green_agent.py lines
112-121 wraps only result construction and artifact emission: when the
first builder reply carries the unknown tag `[FOO]`, `eval_message`
raises inside the main loop and `run_eval` exits with zero resets. -/
theorem c2_counterexample :
    (runEval none "G".toList [sampleInstr] [] ["[FOO];x".toList] true).2 = 0
    ∧ (runEval none "G".toList [sampleInstr] [] ["[FOO];x".toList] true).1
        = .error (.protocol (.invalidParams "Invalid action in response".toList)) :=
  ⟨by decide, by decide⟩

/-- C2 (amended): the messaging session is reset exactly once when
control reaches the result-construction block — that is, when every
instruction was processed without error and at least one instruction
exists — including when artifact construction or emission itself fails;
an error raised while processing an instruction (or the division by a
zero instruction count) propagates with the session never reset. -/
theorem c2_reset_only_from_artifact_block (qa : Option (PyStr → PyStr → PyStr))
    (gc : PyStr) (A B : List Instr) (replies : List PyStr) (aok : Bool) :
    (runEval qa gc A B replies aok).2 =
      if exceptOk (processAll qa (taskDescription gc) (A ++ B) replies 0 0 0) = true
          ∧ (A ++ B).length ≠ 0
      then 1 else 0 := by
  simp only [runEval]
  cases hp : processAll qa (taskDescription gc) (A ++ B) replies 0 0 0 with
  | error e => simp [exceptOk]
  | ok t =>
    simp only [exceptOk, true_and]
    by_cases hl : (A ++ B).length = 0
    · rw [if_pos hl, if_neg (fun hc => hc hl)]
    · rw [if_neg hl, if_pos hl]
      cases aok <;> rfl

/-- Helper: line 109's accuracy expression written with the division
first equals the specification's `100 * num_correct / scored_count`
form, and is 0 at a zero scored count; the rational division is total,
so no division-by-zero fault can occur. -/
theorem computeAccuracy_eq (nc sc : Nat) :
    computeAccuracy nc sc
      = if sc = 0 then 0 else 100 * (nc : ℚ) / (sc : ℚ) := by
  unfold computeAccuracy
  by_cases h : sc = 0
  · rw [if_neg (fun hc => hc h), if_pos h]
  · rw [if_pos h, if_neg h, div_mul_eq_mul_div, mul_comm]

/-- C9: whenever `run_eval` completes, the reported accuracy is
`100 * num_correct / scored_count` for a positive scored count and `0`
for a zero scored count, with no division-by-zero fault (the guarded
expression of green_agent.py line 109 never divides by zero). -/
theorem c9_accuracy_formula (qa : Option (PyStr → PyStr → PyStr))
    (gc : PyStr) (A B : List Instr) (replies : List PyStr) (t : Totals)
    (h : processAll qa (taskDescription gc) (A ++ B) replies 0 0 0 = .ok t)
    (hne : (A ++ B).length ≠ 0) :
    (runEval qa gc A B replies true).1
      = .ok ⟨if t.scored_count = 0 then 0
               else 100 * (t.num_correct : ℚ) / (t.scored_count : ℚ),
             (t.questions_count : ℚ) / (((A ++ B).length : Nat) : ℚ)⟩ := by
  simp only [runEval, h]
  rw [if_neg hne, computeAccuracy_eq]
  rfl

/-- Witness for C9: a one-instruction run with a correct build reports
accuracy `100 * 1 / 1`. -/
theorem c9_witness :
    (runEval none "G".toList [sampleInstr] [] ["[BUILD];Red,0,50,0".toList] true).1
      = .ok ⟨if (1 : Nat) = 0 then 0 else 100 * ((1 : Nat) : ℚ) / ((1 : Nat) : ℚ),
             ((0 : Nat) : ℚ) / (((1 : Nat) : Nat) : ℚ)⟩ :=
  c9_accuracy_formula none "G".toList [sampleInstr] [] ["[BUILD];Red,0,50,0".toList]
    ⟨1, 1, 0, []⟩ (by decide) (by decide)

/-- Helper: `addRounds` keeps the list length. -/
theorem addRounds_length (n : Nat) (l : List Instr) : (addRounds n l).length = l.length := by
  induction l generalizing n with
  | nil => rfl
  | cons i is ih => simp [addRounds, ih]

/-- Helper: the rounds assigned by `addRounds n` are `n, n+1, ...`. -/
theorem addRounds_map_round (n : Nat) (l : List Instr) :
    (addRounds n l).map (fun i => i.round) = List.range' n l.length := by
  induction l generalizing n with
  | nil => rfl
  | cons i is ih => simp [addRounds, List.range'_succ, ih]

/-- Helper: concatenating the two round-stamped lists yields the rounds
`1..N` exactly. -/
theorem roundsConcat (ia ib : List Instr) :
    ((addRounds 1 ia ++ addRounds (ia.length + 1) ib).map fun i => i.round)
      = List.range' 1 ((addRounds 1 ia).length + (addRounds (ia.length + 1) ib).length) := by
  rw [List.map_append, addRounds_map_round, addRounds_map_round, addRounds_length,
    addRounds_length]
  have h := List.range'_append 1 ia.length ib.length 1
  simpa [Nat.add_comm] using h

/-- C8: over any generated trial selection, the `round` values across the
concatenation of the first and second speaker's instruction lists are
exactly `1..N` (as the contiguous range starting at 1), where N is the
total number of instructions produced; in particular the second list
continues numbering from the end of the first. -/
theorem c8_rounds (seed : Nat) (d1 d2 : List TrialRow) :
    (((BuildingGameTask.init d1 d2 seed).run.instructions_A
        ++ (BuildingGameTask.init d1 d2 seed).run.instructions_B).map fun i => i.round)
      = List.range' 1 ((BuildingGameTask.init d1 d2 seed).run.instructions_A.length
          + (BuildingGameTask.init d1 d2 seed).run.instructions_B.length) := by
  simp only [BuildingGameTask.run]
  exact roundsConcat _ _

/-- Helper: with a nonempty version whose versioned lookup misses,
`create_instruction_with_version` resolves through the unversioned base
id. -/
theorem createWithVersion_fallback (l1 l2 : List TrialRow) (base speaker : PyStr)
    (listId : Nat) (v : PyStr) (hv : v ≠ [])
    (hmiss : getInstructionData (base ++ v) (if listId = 1 then l1 else l2) = none) :
    createInstructionWithVersion l1 l2 base speaker listId v
      = (getInstructionData base (if listId = 1 then l1 else l2)).map
          (fun row => mkInstr row speaker listId) := by
  simp only [createInstructionWithVersion]
  rw [if_pos hv, hmiss, if_pos ⟨rfl, hv⟩]

/-- Helper: one `critical` slot step of the generation walk. -/
theorem genLoop_critical_step (l1 l2 : List TrialRow) (speaker : PyStr)
    (fsPool critPool : List PyStr) (fsList critList : Nat) (rest : List PyStr)
    (fIdx cIdx : Nat) :
    genLoop l1 l2 speaker fsPool critPool fsList critList ("critical".toList :: rest) fIdx cIdx
      = if h : cIdx < critPool.length then
          match createInstructionWithVersion l1 l2 (critPool.get ⟨cIdx, h⟩) speaker critList
              "a".toList with
          | some i => i :: genLoop l1 l2 speaker fsPool critPool fsList critList rest fIdx (cIdx + 1)
          | none => genLoop l1 l2 speaker fsPool critPool fsList critList rest fIdx (cIdx + 1)
        else genLoop l1 l2 speaker fsPool critPool fsList critList rest fIdx cIdx := by
  rfl

/-- Helper: one `critical_a` slot step of the generation walk. -/
theorem genLoop_critical_a_step (l1 l2 : List TrialRow) (speaker : PyStr)
    (fsPool critPool : List PyStr) (fsList critList : Nat) (rest : List PyStr)
    (fIdx cIdx : Nat) :
    genLoop l1 l2 speaker fsPool critPool fsList critList ("critical_a".toList :: rest) fIdx cIdx
      = if h : cIdx < critPool.length then
          match createInstructionWithVersion l1 l2 (critPool.get ⟨cIdx, h⟩) speaker critList
              "a".toList with
          | some i => i :: genLoop l1 l2 speaker fsPool critPool fsList critList rest fIdx (cIdx + 1)
          | none => genLoop l1 l2 speaker fsPool critPool fsList critList rest fIdx (cIdx + 1)
        else genLoop l1 l2 speaker fsPool critPool fsList critList rest fIdx cIdx := by
  rfl

/-- Helper: one `critical_b` slot step of the generation walk. -/
theorem genLoop_critical_b_step (l1 l2 : List TrialRow) (speaker : PyStr)
    (fsPool critPool : List PyStr) (fsList critList : Nat) (rest : List PyStr)
    (fIdx cIdx : Nat) :
    genLoop l1 l2 speaker fsPool critPool fsList critList ("critical_b".toList :: rest) fIdx cIdx
      = if h : cIdx < critPool.length then
          match createInstructionWithVersion l1 l2 (critPool.get ⟨cIdx, h⟩) speaker critList
              "b".toList with
          | some i => i :: genLoop l1 l2 speaker fsPool critPool fsList critList rest fIdx (cIdx + 1)
          | none => genLoop l1 l2 speaker fsPool critPool fsList critList rest fIdx (cIdx + 1)
        else genLoop l1 l2 speaker fsPool critPool fsList critList rest fIdx cIdx := by
  rfl

/-- C10: for a `critical`, `critical_a` or `critical_b` slot whose
versioned lookup misses, the unversioned base id is looked up instead;
when that lookup succeeds its row becomes the slot's instruction, and
when it also misses the slot produces no instruction — in both cases the
critical-pool index advances by one. -/
theorem c10_critical_fallback_and_skip
    (l1 l2 : List TrialRow) (speaker : PyStr) (fsPool critPool : List PyStr)
    (fsList critList : Nat) (slot : PyStr) (rest : List PyStr) (fIdx cIdx : Nat)
    (base v : PyStr) (data : List TrialRow)
    (hslot : slot = "critical".toList ∨ slot = "critical_a".toList
      ∨ slot = "critical_b".toList)
    (hv : v = if slot = "critical_b".toList then "b".toList else "a".toList)
    (hidx : cIdx < critPool.length)
    (hbase : critPool.get ⟨cIdx, hidx⟩ = base)
    (hdata : data = if critList = 1 then l1 else l2)
    (hmiss : getInstructionData (base ++ v) data = none) :
    (∀ row, getInstructionData base data = some row →
      genLoop l1 l2 speaker fsPool critPool fsList critList (slot :: rest) fIdx cIdx
        = mkInstr row speaker critList
            :: genLoop l1 l2 speaker fsPool critPool fsList critList rest fIdx (cIdx + 1))
    ∧ (getInstructionData base data = none →
      genLoop l1 l2 speaker fsPool critPool fsList critList (slot :: rest) fIdx cIdx
        = genLoop l1 l2 speaker fsPool critPool fsList critList rest fIdx (cIdx + 1)) := by
  subst hdata
  rcases hslot with h | h | h <;> subst h
  · have hv' : v = "a".toList := hv.trans (by rfl)
    subst hv'
    rw [genLoop_critical_step, dif_pos hidx, hbase,
      createWithVersion_fallback l1 l2 base speaker critList "a".toList (by decide) hmiss]
    constructor
    · intro row hrow
      rw [hrow]
      rfl
    · intro hnone
      rw [hnone]
      rfl
  · have hv' : v = "a".toList := hv.trans (by rfl)
    subst hv'
    rw [genLoop_critical_a_step, dif_pos hidx, hbase,
      createWithVersion_fallback l1 l2 base speaker critList "a".toList (by decide) hmiss]
    constructor
    · intro row hrow
      rw [hrow]
      rfl
    · intro hnone
      rw [hnone]
      rfl
  · have hv' : v = "b".toList := hv.trans (by rfl)
    subst hv'
    rw [genLoop_critical_b_step, dif_pos hidx, hbase,
      createWithVersion_fallback l1 l2 base speaker critList "b".toList (by decide) hmiss]
    constructor
    · intro row hrow
      rw [hrow]
      rfl
    · intro hnone
      rw [hnone]
      rfl

/-- Witness for C10: a `critical_b` slot whose `7b` lookup misses falls
back to base id `7` and still advances the pool index. -/
theorem c10_witness :
    genLoop [] [rowCU7] "Lisa".toList [] ["7".toList] 1 2 ("critical_b".toList :: []) 0 0
      = mkInstr rowCU7 "Lisa".toList 2
          :: genLoop [] [rowCU7] "Lisa".toList [] ["7".toList] 1 2 [] 0 1 :=
  (c10_critical_fallback_and_skip [] [rowCU7] "Lisa".toList [] ["7".toList] 1 2
      "critical_b".toList [] 0 0 "7".toList "b".toList [rowCU7]
      (Or.inr (Or.inr rfl)) (by decide) (by decide) (by decide) (by decide)
      (by decide)).1 rowCU7 (by decide)

/-- Helper: `Char.toNat` is injective. -/
theorem char_toNat_inj {a b : Char} (h : a.toNat = b.toNat) : a = b :=
  Char.ext (UInt32.ext h)

/-- Helper: `Char.ofNat` round-trips on valid (small) code points. -/
theorem toNat_ofNat_valid (n : Nat) (h : n < 55296) : (Char.ofNat n).toNat = n := by
  unfold Char.ofNat
  rw [dif_pos (Or.inl h)]
  rfl

/-- Helper: the code point of a lower-cased character. -/
theorem lowerC_toNat (c : Char) :
    (lowerC c).toNat
      = if 65 ≤ c.toNat ∧ c.toNat ≤ 90 then c.toNat + 32 else c.toNat := by
  unfold lowerC
  split
  · next h => exact toNat_ofNat_valid _ (by omega)
  · rfl

/-- Helper: the code point of an upper-cased character. -/
theorem upperC_toNat (c : Char) :
    (upperC c).toNat
      = if 97 ≤ c.toNat ∧ c.toNat ≤ 122 then c.toNat - 32 else c.toNat := by
  unfold upperC
  split
  · next h => exact toNat_ofNat_valid _ (by omega)
  · rfl

/-- Helper: characters with the same lower-casing have the same
upper-casing. -/
theorem upperC_eq_of_lowerC_eq {a b : Char} (h : lowerC a = lowerC b) :
    upperC a = upperC b := by
  have hn := congrArg Char.toNat h
  rw [lowerC_toNat, lowerC_toNat] at hn
  apply char_toNat_inj
  rw [upperC_toNat, upperC_toNat]
  split_ifs at hn ⊢ <;> omega

/-- Helper: characters with the same lower-casing are both whitespace or
both not. -/
theorem isSpaceC_eq_of_lowerC_eq {a b : Char} (h : lowerC a = lowerC b) :
    isSpaceC a = isSpaceC b := by
  have hn := congrArg Char.toNat h
  rw [lowerC_toNat, lowerC_toNat] at hn
  rw [Bool.eq_iff_iff]
  simp only [isSpaceC, Bool.or_eq_true, Bool.and_eq_true, decide_eq_true_eq]
  split_ifs at hn <;> omega

/-- Helper: lower-casing never produces or destroys a comma. -/
theorem lowerC_ne_comma {a : Char} (h : a ≠ ',') : lowerC a ≠ ',' := by
  intro hc
  apply h
  apply char_toNat_inj
  have hn := congrArg Char.toNat hc
  rw [lowerC_toNat] at hn
  have h44 : (',' : Char).toNat = 44 := rfl
  rw [h44] at hn ⊢
  split_ifs at hn <;> omega

/-- Helper: upper-casing never produces a comma. -/
theorem upperC_ne_comma {a : Char} (h : a ≠ ',') : upperC a ≠ ',' := by
  intro hc
  apply h
  apply char_toNat_inj
  have hn := congrArg Char.toNat hc
  rw [upperC_toNat] at hn
  have h44 : (',' : Char).toNat = 44 := rfl
  rw [h44] at hn ⊢
  split_ifs at hn <;> omega

/-- Helper: lower-casing preserves whitespace-ness. -/
theorem isSpaceC_lowerC (a : Char) : isSpaceC (lowerC a) = isSpaceC a := by
  rw [Bool.eq_iff_iff]
  simp only [isSpaceC, Bool.or_eq_true, Bool.and_eq_true, decide_eq_true_eq, lowerC_toNat]
  split_ifs <;> omega

/-- Helper: upper-casing preserves whitespace-ness. -/
theorem isSpaceC_upperC (a : Char) : isSpaceC (upperC a) = isSpaceC a := by
  rw [Bool.eq_iff_iff]
  simp only [isSpaceC, Bool.or_eq_true, Bool.and_eq_true, decide_eq_true_eq, upperC_toNat]
  split_ifs <;> omega

/-- Helper: lower-casing is idempotent. -/
theorem lowerC_lowerC (a : Char) : lowerC (lowerC a) = lowerC a := by
  apply char_toNat_inj
  rw [lowerC_toNat, lowerC_toNat]
  split_ifs <;> omega

/-- Helper: upper-casing is idempotent. -/
theorem upperC_upperC (a : Char) : upperC (upperC a) = upperC a := by
  apply char_toNat_inj
  rw [upperC_toNat, upperC_toNat]
  split_ifs <;> omega

/-- Helper: case-equivalent strings have equal length. -/
theorem caseStr_length {a b : PyStr} (h : caseStr a b) : a.length = b.length := by
  have := congrArg List.length h
  simpa using this

/-- Helper: case-equivalence survives dropping leading whitespace. -/
theorem caseStr_dropWhile {a b : PyStr} (h : caseStr a b) :
    caseStr (a.dropWhile isSpaceC) (b.dropWhile isSpaceC) := by
  induction a generalizing b with
  | nil =>
    cases b with
    | nil => exact h
    | cons y ys => simp [caseStr] at h
  | cons x xs ih =>
    cases b with
    | nil => simp [caseStr] at h
    | cons y ys =>
      simp only [caseStr, List.map_cons, List.cons.injEq] at h
      obtain ⟨hxy, hrest⟩ := h
      have hsp := isSpaceC_eq_of_lowerC_eq hxy
      rw [List.dropWhile_cons, List.dropWhile_cons]
      by_cases hx : isSpaceC x = true
      · rw [if_pos hx, if_pos (hsp ▸ hx)]
        exact ih hrest
      · rw [if_neg hx, if_neg (fun hy => hx (hsp ▸ hy))]
        simp only [caseStr, List.map_cons, hxy, hrest]

/-- Helper: case-equivalence survives reversal. -/
theorem caseStr_reverse {a b : PyStr} (h : caseStr a b) : caseStr a.reverse b.reverse := by
  simp only [caseStr, List.map_reverse, h]

/-- Helper: case-equivalence survives trailing-whitespace removal. -/
theorem caseStr_dropTrail {a b : PyStr} (h : caseStr a b) :
    caseStr (dropTrail a) (dropTrail b) :=
  caseStr_reverse (caseStr_dropWhile (caseStr_reverse h))

/-- Helper: case-equivalence survives `strip`. -/
theorem caseStr_strip {a b : PyStr} (h : caseStr a b) : caseStr (strip a) (strip b) :=
  caseStr_dropTrail (caseStr_dropWhile h)

/-- Helper: case-equivalent strings capitalize identically. -/
theorem capitalize_eq_of_caseStr {a b : PyStr} (h : caseStr a b) :
    capitalize a = capitalize b := by
  cases a with
  | nil =>
    cases b with
    | nil => rfl
    | cons y ys => simp [caseStr] at h
  | cons x xs =>
    cases b with
    | nil => simp [caseStr] at h
    | cons y ys =>
      simp only [caseStr, List.map_cons, List.cons.injEq] at h
      obtain ⟨hxy, hrest⟩ := h
      simp only [capitalize, upperC_eq_of_lowerC_eq hxy, hrest]

/-- Helper: `splitChar` never returns the empty list of fields. -/
theorem splitChar_ne_nil (sep : Char) (s : PyStr) : splitChar sep s ≠ [] := by
  induction s with
  | nil => simp [splitChar]
  | cons c rest ih =>
    simp only [splitChar]
    split
    · simp
    · split
      · simp
      · simp

/-- Helper: no field produced by `splitChar` contains the separator. -/
theorem mem_splitChar_not_sep {sep : Char} {s p : PyStr} (hp : p ∈ splitChar sep s)
    {c : Char} (hc : c ∈ p) : c ≠ sep := by
  induction s generalizing p with
  | nil =>
    simp only [splitChar, List.mem_singleton] at hp
    subst hp
    simp at hc
  | cons x rest ih =>
    simp only [splitChar] at hp
    by_cases hx : x = sep
    · rw [if_pos hx] at hp
      rcases List.mem_cons.mp hp with rfl | hmem
      · simp at hc
      · exact ih hmem hc
    · rw [if_neg hx] at hp
      cases hsp : splitChar sep rest with
      | nil => exact absurd hsp (splitChar_ne_nil sep rest)
      | cons s0 ss =>
        rw [hsp] at hp
        rcases List.mem_cons.mp hp with rfl | hmem
        · rcases List.mem_cons.mp hc with rfl | hc0
          · exact hx
          · exact ih (by rw [hsp]; exact List.mem_cons_self _ _) hc0
        · exact ih (by rw [hsp]; exact List.mem_cons_of_mem _ hmem) hc

/-- Helper: a separator-free string is a single field. -/
theorem splitChar_eq_single {sep : Char} {s : PyStr} (h : ∀ c ∈ s, c ≠ sep) :
    splitChar sep s = [s] := by
  induction s with
  | nil => rfl
  | cons x rest ih =>
    simp only [splitChar]
    rw [if_neg (h x (List.mem_cons_self _ _)), ih (fun c hc => h c (List.mem_cons_of_mem _ hc))]

/-- Helper: splitting past a separator-free prefix peels off one field. -/
theorem splitChar_append (sep : Char) (a c : PyStr) (ha : ∀ x ∈ a, x ≠ sep) :
    splitChar sep (a ++ sep :: c) = a :: splitChar sep c := by
  induction a with
  | nil => simp [splitChar]
  | cons x xs ih =>
    simp only [List.cons_append, splitChar, List.append_eq]
    rw [if_neg (ha x (List.mem_cons_self _ _)),
      ih (fun y hy => ha y (List.mem_cons_of_mem _ hy))]

/-- Helper: the first element surviving `dropWhile` fails the predicate. -/
theorem dropWhile_head_false {p : Char → Bool} {l r : PyStr} {c : Char}
    (h : l.dropWhile p = c :: r) : p c = false := by
  induction l with
  | nil => simp at h
  | cons x xs ih =>
    rw [List.dropWhile_cons] at h
    by_cases px : p x = true
    · rw [if_pos px] at h
      exact ih h
    · rw [if_neg px] at h
      cases h
      simpa using px

/-- Helper: `dropWhile` is idempotent. -/
theorem dropWhile_idem {p : Char → Bool} (l : PyStr) :
    (l.dropWhile p).dropWhile p = l.dropWhile p := by
  cases h : l.dropWhile p with
  | nil => rfl
  | cons c r =>
    rw [List.dropWhile_cons, if_neg (by simp [dropWhile_head_false h])]

/-- Helper: a member failing the predicate keeps `dropWhile` from
emptying the list. -/
theorem dropWhile_ne_nil_of_mem {p : Char → Bool} {l : PyStr} {c : Char}
    (hc : c ∈ l) (hp : p c = false) : l.dropWhile p ≠ [] := by
  induction l with
  | nil => simp at hc
  | cons x xs ih =>
    rw [List.dropWhile_cons]
    rcases List.mem_cons.mp hc with rfl | hmem
    · rw [if_neg (by simp [hp])]
      simp
    · by_cases px : p x = true
      · rw [if_pos px]
        exact ih hmem
      · rw [if_neg px]
        simp

/-- Helper: `dropWhile` over an append whose left part survives. -/
theorem dropWhile_append_left {p : Char → Bool} (a b : PyStr) (h : a.dropWhile p ≠ []) :
    (a ++ b).dropWhile p = a.dropWhile p ++ b := by
  induction a with
  | nil => simp at h
  | cons x xs ih =>
    rw [List.cons_append, List.dropWhile_cons, List.dropWhile_cons] at *
    by_cases px : p x = true
    · rw [if_pos px] at h ⊢
      rw [if_pos px]
      exact ih h
    · rw [if_neg px] at h ⊢
      rw [if_neg px]
      rfl

/-- Helper: `dropWhile` over an append whose left part vanishes. -/
theorem dropWhile_append_nil {p : Char → Bool} {a : PyStr} (h : a.dropWhile p = [])
    (b : PyStr) : (a ++ b).dropWhile p = b.dropWhile p := by
  induction a with
  | nil => rfl
  | cons x xs ih =>
    rw [List.dropWhile_cons] at h
    by_cases px : p x = true
    · rw [if_pos px] at h
      rw [List.cons_append, List.dropWhile_cons, if_pos px]
      exact ih h
    · rw [if_neg px] at h
      simp at h

/-- Helper: `dropWhile` over an append ending in a surviving element. -/
theorem dropWhile_append_last {p : Char → Bool} (xs : PyStr) {c : Char} (hc : p c = false) :
    (xs ++ [c]).dropWhile p = xs.dropWhile p ++ [c] := by
  induction xs with
  | nil => simp [List.dropWhile_cons, hc]
  | cons x l ih =>
    rw [List.cons_append, List.dropWhile_cons, List.dropWhile_cons]
    by_cases px : p x = true
    · rw [if_pos px, if_pos px]
      exact ih
    · rw [if_neg px, if_neg px]
      rfl

/-- Helper: removing trailing whitespace yields a prefix. -/
theorem dropTrail_prefix (l : PyStr) : dropTrail l <+: l := by
  unfold dropTrail
  have h := List.dropWhile_suffix (l := l.reverse) isSpaceC
  have h2 := List.reverse_prefix.mpr h
  simpa using h2

/-- Helper: a nonempty prefix has the same head. -/
theorem prefix_head_eq {a b : PyStr} (h : a <+: b) (ha : a ≠ []) : a.head? = b.head? := by
  obtain ⟨t, rfl⟩ := h
  cases a with
  | nil => exact absurd rfl ha
  | cons x xs => rfl

/-- Helper: `dropTrail` below a surviving last element. -/
theorem dropTrail_cons_false {c : Char} (r : PyStr) (hc : isSpaceC c = false) :
    dropTrail (c :: r) = c :: dropTrail r := by
  unfold dropTrail
  rw [List.reverse_cons, dropWhile_append_last _ hc, List.reverse_append]
  rfl

/-- Helper: `dropTrail` over an append whose right part contains a
non-whitespace character. -/
theorem dropTrail_append_left (a b : PyStr) {c : Char} (hc : c ∈ b)
    (hcs : isSpaceC c = false) : dropTrail (a ++ b) = a ++ dropTrail b := by
  unfold dropTrail
  have hne : b.reverse.dropWhile isSpaceC ≠ [] :=
    dropWhile_ne_nil_of_mem (List.mem_reverse.mpr hc) hcs
  rw [List.reverse_append, dropWhile_append_left _ _ hne, List.reverse_append,
    List.reverse_reverse]

/-- Helper: heads surviving a `dropWhile isSpaceC` are not whitespace. -/
theorem dropWhile_noLead (l : PyStr) :
    ∀ c, (l.dropWhile isSpaceC).head? = some c → isSpaceC c = false := by
  intro c h
  cases hd : l.dropWhile isSpaceC with
  | nil => rw [hd] at h; simp at h
  | cons x r =>
    rw [hd] at h
    cases h
    exact dropWhile_head_false hd

/-- Helper: the head of a stripped string is not whitespace. -/
theorem strip_noLead (s : PyStr) :
    ∀ c, (strip s).head? = some c → isSpaceC c = false := by
  intro c h
  have hpre := dropTrail_prefix (s.dropWhile isSpaceC)
  have hne : strip s ≠ [] := by
    intro hn
    rw [hn] at h
    simp at h
  have hh := prefix_head_eq hpre hne
  exact dropWhile_noLead s c (hh ▸ h)

/-- Helper: the last character of a stripped string is not whitespace. -/
theorem strip_noTrail (s : PyStr) :
    ∀ c, (strip s).reverse.head? = some c → isSpaceC c = false := by
  intro c h
  unfold strip dropTrail at h
  rw [List.reverse_reverse] at h
  exact dropWhile_noLead _ c h

/-- Helper: a string with no leading and no trailing whitespace is
`strip`-stable. -/
theorem strip_eq_self {t : PyStr} (h1 : ∀ c, t.head? = some c → isSpaceC c = false)
    (h2 : ∀ c, t.reverse.head? = some c → isSpaceC c = false) : strip t = t := by
  have hdw : t.dropWhile isSpaceC = t := by
    cases t with
    | nil => rfl
    | cons x xs => rw [List.dropWhile_cons, if_neg (by simp [h1 x rfl])]
  have hdw2 : t.reverse.dropWhile isSpaceC = t.reverse := by
    cases ht : t.reverse with
    | nil => rfl
    | cons x xs =>
      rw [List.dropWhile_cons, if_neg (by simp [h2 x (by rw [ht]; rfl)])]
  unfold strip dropTrail
  rw [hdw, hdw2, List.reverse_reverse]

/-- Helper: `strip` is idempotent. -/
theorem strip_idem (s : PyStr) : strip (strip s) = strip s :=
  strip_eq_self (strip_noLead s) (strip_noTrail s)

/-- Helper: characters of a stripped string come from the string. -/
theorem mem_strip {c : Char} {t : PyStr} (h : c ∈ strip t) : c ∈ t := by
  unfold strip dropTrail at h
  have h1 := List.mem_reverse.mp h
  have h2 := (List.dropWhile_suffix (l := (t.dropWhile isSpaceC).reverse) isSpaceC).sublist.subset h1
  have h3 := List.mem_reverse.mp h2
  exact (List.dropWhile_suffix (l := t) isSpaceC).sublist.subset h3

/-- Helper: `capitalize` keeps a non-whitespace head non-whitespace. -/
theorem capitalize_noLead {t : PyStr} (h : ∀ c, t.head? = some c → isSpaceC c = false) :
    ∀ c, (capitalize t).head? = some c → isSpaceC c = false := by
  cases t with
  | nil => intro c hc; simp [capitalize] at hc
  | cons x xs =>
    intro c hc
    simp only [capitalize, List.head?_cons, Option.some.injEq] at hc
    subst hc
    rw [isSpaceC_upperC]
    exact h x rfl

/-- Helper: `capitalize` keeps a non-whitespace last character
non-whitespace. -/
theorem capitalize_noTrail {t : PyStr}
    (h : ∀ c, t.reverse.head? = some c → isSpaceC c = false) :
    ∀ c, (capitalize t).reverse.head? = some c → isSpaceC c = false := by
  cases t with
  | nil => intro c hc; simp [capitalize] at hc
  | cons x xs =>
    intro c hc
    simp only [capitalize, List.reverse_cons] at hc
    cases hrev : xs.reverse with
    | nil =>
      have hxs : xs = [] := by simpa using hrev
      subst hxs
      simp only [List.map_nil, List.reverse_nil, List.nil_append, List.head?_cons,
        Option.some.injEq] at hc
      subst hc
      rw [isSpaceC_upperC]
      exact h x (by simp)
    | cons z zs =>
      rw [← List.map_reverse, hrev] at hc
      simp only [List.map_cons, List.cons_append, List.head?_cons, Option.some.injEq] at hc
      subst hc
      rw [isSpaceC_lowerC]
      refine h z ?_
      rw [List.reverse_cons, hrev]
      rfl

/-- Helper: `capitalize` is idempotent. -/
theorem capitalize_capitalize (t : PyStr) : capitalize (capitalize t) = capitalize t := by
  cases t with
  | nil => rfl
  | cons x xs =>
    simp only [capitalize, List.map_map, upperC_upperC, List.cons.injEq, true_and]
    exact List.map_congr_left (fun a _ => lowerC_lowerC a)

/-- Helper: `capitalize` preserves comma-freeness. -/
theorem capitalize_commafree {t : PyStr} (h : ∀ c ∈ t, c ≠ ',') :
    ∀ c ∈ capitalize t, c ≠ ',' := by
  cases t with
  | nil => intro c hc; simp [capitalize] at hc
  | cons x xs =>
    intro c hc
    simp only [capitalize, List.mem_cons] at hc
    rcases hc with rfl | hc
    · exact upperC_ne_comma (h x (List.mem_cons_self _ _))
    · obtain ⟨d, hd, rfl⟩ := List.mem_map.mp hc
      exact lowerC_ne_comma (h d (List.mem_cons_of_mem _ hd))

/-- Helper: `capitalize` of a stripped string is `strip`-stable. -/
theorem capitalize_strip_stable (p : PyStr) :
    strip (capitalize (strip p)) = capitalize (strip p) :=
  strip_eq_self (capitalize_noLead (strip_noLead p)) (capitalize_noTrail (strip_noTrail p))

/-- Helper: the four-element comma join, written with explicit conses. -/
theorem joinSep4 (a b c d : PyStr) :
    joinSepS ",".toList [a, b, c, d] = a ++ ',' :: (b ++ ',' :: (c ++ ',' :: d)) := by
  simp [joinSepS, List.append_assoc]

/-- Helper: head of a reversed append with nonempty right part. -/
theorem reverse_head_append_right (a b : PyStr) (hb : b ≠ []) :
    (a ++ b).reverse.head? = b.reverse.head? := by
  rw [List.reverse_append]
  cases hr : b.reverse with
  | nil => exact absurd (by simpa using hr) hb
  | cons z zs => rfl

/-- Helper: last character of `a ++ ',' :: b` for nonempty `b` is the
last character of `b`. -/
theorem reverse_head_comma_append (a b : PyStr) (hb : b ≠ []) :
    ((a ++ ',' :: b).reverse.head?) = b.reverse.head? :=
  (reverse_head_append_right a (',' :: b) (by simp)).trans
    (reverse_head_append_right [','] b hb)

/-- Helper: a list of length four is an explicit four-element list. -/
theorem list_length_four {α : Type} {l : List α} (h : l.length = 4) :
    ∃ a b c d, l = [a, b, c, d] := by
  rcases l with _ | ⟨a, _ | ⟨b, _ | ⟨c, _ | ⟨d, _ | ⟨e, t⟩⟩⟩⟩⟩
  · simp at h
  · simp at h
  · simp at h
  · simp at h
  · exact ⟨a, b, c, d, rfl⟩
  · simp only [List.length_cons] at h
    omega

/-- Helper: a comma-joined item built from comma-free, strip-stable
fields is a `normalizeItem` fixpoint. -/
theorem normalizeItem_joined (c0 k1 k2 k3 : PyStr)
    (hc0f : ∀ ch ∈ c0, ch ≠ ',') (hk1f : ∀ ch ∈ k1, ch ≠ ',')
    (hk2f : ∀ ch ∈ k2, ch ≠ ',') (hk3f : ∀ ch ∈ k3, ch ≠ ',')
    (hc0lead : ∀ ch, c0.head? = some ch → isSpaceC ch = false)
    (hk3trail : ∀ ch, k3.reverse.head? = some ch → isSpaceC ch = false)
    (hs1 : strip k1 = k1) (hs2 : strip k2 = k2) (hs3 : strip k3 = k3)
    (hscap : strip c0 = c0) (hcap : capitalize c0 = c0) :
    normalizeItem (c0 ++ ',' :: (k1 ++ ',' :: (k2 ++ ',' :: k3)))
      = some (c0 ++ ',' :: (k1 ++ ',' :: (k2 ++ ',' :: k3))) := by
  have hhead : ∀ ch, (c0 ++ ',' :: (k1 ++ ',' :: (k2 ++ ',' :: k3))).head? = some ch →
      isSpaceC ch = false := by
    intro ch hch
    cases hc : c0 with
    | nil =>
      rw [hc] at hch
      simp only [List.nil_append, List.head?_cons, Option.some.injEq] at hch
      subst hch
      decide
    | cons u us =>
      rw [hc] at hch
      simp only [List.cons_append, List.head?_cons, Option.some.injEq] at hch
      subst hch
      exact hc0lead u (by rw [hc]; rfl)
  have htrail : ∀ ch, (c0 ++ ',' :: (k1 ++ ',' :: (k2 ++ ',' :: k3))).reverse.head? = some ch →
      isSpaceC ch = false := by
    intro ch hch
    rw [reverse_head_comma_append _ _ (by simp)] at hch
    rw [reverse_head_comma_append _ _ (by simp)] at hch
    cases hk3 : k3 with
    | nil =>
      rw [hk3] at hch
      rw [reverse_head_append_right _ [','] (by simp)] at hch
      simp only [List.reverse_cons, List.reverse_nil, List.nil_append, List.head?_cons,
        Option.some.injEq] at hch
      subst hch
      decide
    | cons w ws =>
      rw [reverse_head_comma_append _ _ (by rw [hk3]; simp)] at hch
      exact hk3trail ch hch
  have hstrip : strip (c0 ++ ',' :: (k1 ++ ',' :: (k2 ++ ',' :: k3)))
      = c0 ++ ',' :: (k1 ++ ',' :: (k2 ++ ',' :: k3)) := strip_eq_self hhead htrail
  have hsplit : splitChar ',' (c0 ++ ',' :: (k1 ++ ',' :: (k2 ++ ',' :: k3)))
      = [c0, k1, k2, k3] := by
    rw [splitChar_append ',' c0 _ hc0f, splitChar_append ',' k1 _ hk1f,
      splitChar_append ',' k2 _ hk2f, splitChar_eq_single hk3f]
  simp only [normalizeItem, hstrip, hsplit]
  rw [if_neg (by simp)]
  rw [if_pos (by simp)]
  simp only [List.headD_cons, List.drop_succ_cons, List.drop_zero, List.map_cons,
    List.map_nil, hs1, hs2, hs3, hscap, hcap, joinSep4]

/-- Helper: every output of `normalizeItem` is itself a fixpoint of
`normalizeItem`. -/
theorem normalizeItem_fixed {x y : PyStr} (h : normalizeItem x = some y) :
    normalizeItem y = some y := by
  simp only [normalizeItem] at h
  by_cases hne : strip x = []
  · rw [if_pos hne] at h
    simp at h
  rw [if_neg hne] at h
  by_cases hlen : (splitChar ',' (strip x)).length = 4
  swap
  · rw [if_neg hlen] at h
    simp at h
  rw [if_pos hlen] at h
  obtain ⟨p0, p1, p2, p3, hsp⟩ := list_length_four hlen
  rw [hsp] at h
  simp only [List.headD_cons, List.drop_succ_cons, List.drop_zero, List.map_cons,
    List.map_nil, Option.some.injEq, joinSep4] at h
  subst h
  have hp0 : ∀ c ∈ p0, c ≠ ',' := fun c hc =>
    mem_splitChar_not_sep (p := p0) (by rw [hsp]; simp) hc
  have hp1 : ∀ c ∈ p1, c ≠ ',' := fun c hc =>
    mem_splitChar_not_sep (p := p1) (by rw [hsp]; simp) hc
  have hp2 : ∀ c ∈ p2, c ≠ ',' := fun c hc =>
    mem_splitChar_not_sep (p := p2) (by rw [hsp]; simp) hc
  have hp3 : ∀ c ∈ p3, c ≠ ',' := fun c hc =>
    mem_splitChar_not_sep (p := p3) (by rw [hsp]; simp) hc
  exact normalizeItem_joined _ _ _ _
    (capitalize_commafree (fun ch hch => hp0 ch (mem_strip hch)))
    (fun ch hch => hp1 ch (mem_strip hch))
    (fun ch hch => hp2 ch (mem_strip hch))
    (fun ch hch => hp3 ch (mem_strip hch))
    (capitalize_noLead (strip_noLead p0))
    (strip_noTrail p3)
    (strip_idem p1) (strip_idem p2) (strip_idem p3)
    (capitalize_strip_stable p0)
    (capitalize_capitalize (strip p0))

/-- Helper: `normalizeItem` only depends on the stripped item. -/
theorem normalizeItem_eq_of_strip_eq {a b : PyStr} (h : strip a = strip b) :
    normalizeItem a = normalizeItem b := by
  simp only [normalizeItem, h]

/-- Helper: `normalizeItem` on two items that share everything from the
first comma on and whose color prefixes are case-equivalent. -/
theorem normalizeItem_color_parts (t₁ t₂ d : PyStr) (hcase : caseStr t₁ t₂)
    (ht₁f : ∀ c ∈ t₁, c ≠ ',') (ht₂f : ∀ c ∈ t₂, c ≠ ',')
    (hd : ∀ c r, d = c :: r → c = ',') :
    normalizeItem (t₁ ++ d) = normalizeItem (t₂ ++ d) := by
  cases d with
  | nil =>
    simp only [List.append_nil]
    have hs := caseStr_strip hcase
    have hlen := caseStr_length hs
    simp only [normalizeItem]
    by_cases h1 : strip t₁ = []
    · have h2 : strip t₂ = [] :=
        List.eq_nil_of_length_eq_zero (by rw [← hlen, h1]; rfl)
      rw [if_pos h1, if_pos h2]
    · have h2 : strip t₂ ≠ [] := fun hh =>
        h1 (List.eq_nil_of_length_eq_zero (by rw [hlen, hh]; rfl))
      rw [if_neg h1, if_neg h2]
      rw [splitChar_eq_single (fun c hc => ht₁f c (mem_strip hc)),
        splitChar_eq_single (fun c hc => ht₂f c (mem_strip hc))]
      rfl
  | cons dc dr =>
    have hdc : dc = ',' := hd dc dr rfl
    subst hdc
    have hu := caseStr_dropWhile hcase
    have hulen := caseStr_length hu
    by_cases hu1 : t₁.dropWhile isSpaceC = []
    · have hu2 : t₂.dropWhile isSpaceC = [] :=
        List.eq_nil_of_length_eq_zero (by rw [← hulen, hu1]; rfl)
      apply normalizeItem_eq_of_strip_eq
      unfold strip
      rw [dropWhile_append_nil hu1, dropWhile_append_nil hu2]
    · have hu2 : t₂.dropWhile isSpaceC ≠ [] := fun hh =>
        hu1 (List.eq_nil_of_length_eq_zero (by rw [hulen, hh]; rfl))
      have e₁ : strip (t₁ ++ ',' :: dr)
          = t₁.dropWhile isSpaceC ++ ',' :: dropTrail dr := by
        unfold strip
        rw [dropWhile_append_left _ _ hu1,
          dropTrail_append_left _ _ (List.mem_cons_self ',' dr) (by decide),
          dropTrail_cons_false dr (by decide)]
      have e₂ : strip (t₂ ++ ',' :: dr)
          = t₂.dropWhile isSpaceC ++ ',' :: dropTrail dr := by
        unfold strip
        rw [dropWhile_append_left _ _ hu2,
          dropTrail_append_left _ _ (List.mem_cons_self ',' dr) (by decide),
          dropTrail_cons_false dr (by decide)]
      have hcf₁ : ∀ c ∈ t₁.dropWhile isSpaceC, c ≠ ',' := fun c hc =>
        ht₁f c ((List.dropWhile_sublist _).subset hc)
      have hcf₂ : ∀ c ∈ t₂.dropWhile isSpaceC, c ≠ ',' := fun c hc =>
        ht₂f c ((List.dropWhile_sublist _).subset hc)
      simp only [normalizeItem, e₁, e₂]
      rw [if_neg (show ¬(t₁.dropWhile isSpaceC ++ ',' :: dropTrail dr = []) by simp),
        if_neg (show ¬(t₂.dropWhile isSpaceC ++ ',' :: dropTrail dr = []) by simp)]
      rw [splitChar_append ',' _ _ hcf₁, splitChar_append ',' _ _ hcf₂]
      by_cases hlen4 :
        (t₁.dropWhile isSpaceC :: splitChar ',' (dropTrail dr)).length = 4
      · rw [if_pos hlen4, if_pos (by simpa using hlen4)]
        simp only [List.headD_cons, List.drop_succ_cons, List.drop_zero]
        rw [capitalize_eq_of_caseStr (caseStr_strip hu)]
      · rw [if_neg hlen4, if_neg (fun hh => hlen4 (by simpa using hh))]

/-- Helper: `normalizeItem` ignores letter-casing in the color field. -/
theorem normalizeItem_colorCase {i j : PyStr} (h : colorCaseVariant i j) :
    normalizeItem i = normalizeItem j := by
  obtain ⟨hcase, hdrop⟩ := h
  conv_lhs => rw [← List.takeWhile_append_dropWhile (p := fun c => c ≠ ',') (l := i)]
  conv_rhs => rw [← List.takeWhile_append_dropWhile (p := fun c => c ≠ ',') (l := j)]
  rw [hdrop]
  apply normalizeItem_color_parts _ _ _ hcase
  · intro c hc
    have := List.mem_takeWhile_imp hc
    simpa using this
  · intro c hc
    have := List.mem_takeWhile_imp hc
    simpa using this
  · intro c r hc
    have := dropWhile_head_false hc
    simpa using this

/-- Helper: membership in the normalized set. -/
theorem mem_normalizeStructure {y : PyStr} {l : List PyStr} :
    y ∈ normalizeStructure l ↔ ∃ x ∈ l, normalizeItem x = some y := by
  simp [normalizeStructure, List.mem_filterMap]

/-- Helper: re-normalizing any enumeration of a normalized set gives the
same set. -/
theorem normalizeStructure_of_normalized {l l' : List PyStr}
    (h : l'.toFinset = normalizeStructure l) :
    normalizeStructure l' = normalizeStructure l := by
  ext y
  rw [mem_normalizeStructure]
  constructor
  · rintro ⟨x, hx, hnx⟩
    have hxmem : x ∈ normalizeStructure l := by
      rw [← h]
      exact List.mem_toFinset.mpr hx
    obtain ⟨z, _, hz⟩ := mem_normalizeStructure.mp hxmem
    have hfix := normalizeItem_fixed hz
    rw [hfix] at hnx
    cases hnx
    exact hxmem
  · intro hy
    obtain ⟨z, _, hz⟩ := mem_normalizeStructure.mp hy
    refine ⟨y, ?_, normalizeItem_fixed hz⟩
    rw [← List.mem_toFinset, h]
    exact hy

/-- Helper: normalization only sees the set of input items. -/
theorem normalizeStructure_congr {l₁ l₂ : List PyStr} (h : l₁.toFinset = l₂.toFinset) :
    normalizeStructure l₁ = normalizeStructure l₂ := by
  ext y
  rw [mem_normalizeStructure, mem_normalizeStructure]
  constructor
  · rintro ⟨x, hx, hnx⟩
    exact ⟨x, List.mem_toFinset.mp (h ▸ List.mem_toFinset.mpr hx), hnx⟩
  · rintro ⟨x, hx, hnx⟩
    exact ⟨x, List.mem_toFinset.mp (h.symm ▸ List.mem_toFinset.mpr hx), hnx⟩

/-- Helper: normalization ignores pointwise color-field case changes. -/
theorem normalizeStructure_colorCase {l₁ l₂ : List PyStr}
    (h : List.Forall₂ colorCaseVariant l₁ l₂) :
    normalizeStructure l₁ = normalizeStructure l₂ := by
  unfold normalizeStructure
  congr 1
  induction h with
  | nil => rfl
  | cons hab hrest ih =>
    simp only [List.filterMap_cons, normalizeItem_colorCase hab, ih]

/-- C6: structure normalization is idempotent (normalizing any
enumeration of its own output yields the same set), invariant under
reordering and duplication of the input blocks (it depends only on the
set of input items), and invariant under letter-casing changes in the
color field of each block. -/
theorem c6_normalize_algebra (l : List PyStr) :
    (∀ l', l'.toFinset = normalizeStructure l → normalizeStructure l' = normalizeStructure l)
    ∧ (∀ l₂, l.toFinset = l₂.toFinset → normalizeStructure l = normalizeStructure l₂)
    ∧ (∀ l₂, List.Forall₂ colorCaseVariant l l₂ →
        normalizeStructure l = normalizeStructure l₂) :=
  ⟨fun _ h => normalizeStructure_of_normalized h,
   fun _ h => normalizeStructure_congr h,
   fun _ h => normalizeStructure_colorCase h⟩

/-- Witness for C6: a two-block structure re-normalized from its own
output, reordered with a duplicate, and with color casing flipped, all
normalize identically. -/
theorem c6_witness :
    normalizeStructure ["Red,0,50,0".toList, "Blue,1,2,3".toList]
      = normalizeStructure ["red,0,50,0".toList, " Blue , 1, 2,3 ".toList]
    ∧ normalizeStructure ["red,0,50,0".toList, " Blue , 1, 2,3 ".toList]
      = normalizeStructure
          [" Blue , 1, 2,3 ".toList, "red,0,50,0".toList, "red,0,50,0".toList]
    ∧ normalizeStructure ["red,0,50,0".toList, " Blue , 1, 2,3 ".toList]
      = normalizeStructure ["RED,0,50,0".toList, " bLUE , 1, 2,3 ".toList] :=
  ⟨(c6_normalize_algebra ["red,0,50,0".toList, " Blue , 1, 2,3 ".toList]).1
      ["Red,0,50,0".toList, "Blue,1,2,3".toList] (by decide),
   (c6_normalize_algebra ["red,0,50,0".toList, " Blue , 1, 2,3 ".toList]).2.1
      [" Blue , 1, 2,3 ".toList, "red,0,50,0".toList, "red,0,50,0".toList] (by decide),
   (c6_normalize_algebra ["red,0,50,0".toList, " Blue , 1, 2,3 ".toList]).2.2
      ["RED,0,50,0".toList, " bLUE , 1, 2,3 ".toList]
      (List.Forall₂.cons (by exact ⟨by decide, by decide⟩)
        (List.Forall₂.cons (by exact ⟨by decide, by decide⟩) List.Forall₂.nil))⟩
